import Mathlib

/-!
Verification of the encrypted keystore subsystem of the MSP desktop
application (source: src/src-tauri/src/main.rs). The keystore persists
nostr secret keys (nsec strings) encrypted under a key derived either
from a user password (Argon2id) or from device-bound material, in a
versioned JSON file with a v1-to-v2 migration path.

Modelling conventions, stated once here:

* External cryptographic primitives (Argon2id, SHA-256, XChaCha20Poly1305,
  the secp256k1 key pair of the nostr library) are idealized symbolically:
  key derivation is the pair of its inputs (collision-free, as the real
  KDF is up to negligible probability), authenticated encryption is a
  sealed box that records the key, nonce and plaintext and opens exactly
  under the sealing key and nonce (the real AEAD rejects any other key or
  nonce up to negligible forgery probability), and the bech32 secret-key
  codec is an injective textual scheme with a partial parser.

* The base64 transport encoding of nonce and ciphertext is treated as
  transparent in the keystore-level model (entries hold the decoded
  values); the string-level behaviour of decrypt_nsec, including base64
  and UTF-8 failure handling, is modelled separately at the byte level
  for the robustness analysis (decrypt_nsec_bytes below).

* File-system effects are modelled by threading an explicit file state:
  the persisted file is absent or holds a document, and a document is
  characterized by how it parses under the current (v2) and legacy (v1)
  schemas, mirroring the two serde parse attempts of load_keystore.

* Ambient effects (random salt and nonce generation, the machine id, the
  current unix time) are supplied through an explicit environment record,
  one per operation invocation, since each operation performs at most one
  encryption.
-/

deriving instance DecidableEq for Except

namespace MSPKeystore

/-- Bytes of a string: the model works with character codes. -/
def strToBytes (s : String) : List Nat :=
  s.data.map Char.toNat

/-- Model of the nostr secret key (external library type). -/
structure SecretKey where
  val : Nat
deriving DecidableEq, Repr

/-- Model of SecretKey::from_bech32: a partial parser for nsec strings.
An nsec string is modelled as the literal prefix nsec1 followed by a
decimal scalar; any other string is rejected, as the real bech32 decoder
rejects malformed input. -/
def secretKeyFromBech32 (s : String) : Except String SecretKey :=
  match s.data with
  | 'n' :: 's' :: 'e' :: 'c' :: '1' :: rest =>
    if rest ≠ [] ∧ rest.all (fun c => c.isDigit) then
      .ok ⟨rest.foldl (fun a c => a * 10 + (c.toNat - 48)) 0⟩
    else .error "Invalid secret key"
  | _ => .error "Invalid secret key"

/-- Model of Keys::public_key().to_hex(): the public identifier derived
deterministically (and injectively) from the secret key. -/
def publicKeyHex (sk : SecretKey) : String :=
  "pub" ++ Nat.repr sk.val

/-- Model of PublicKey::to_bech32 (npub form). -/
def publicKeyNpub (sk : SecretKey) : String :=
  "npub1" ++ Nat.repr sk.val

/-- Profile returned to the caller on login (struct NostrProfile). -/
structure NostrProfile where
  pubkey : String
  npub : String
deriving DecidableEq, Repr

/-- Model of login_with_keys: the network and session-state effects of the
external client layer are outside the keystore and elided; the value
handed back to the caller is the profile of the unlocked key. -/
def login_with_keys (keys : SecretKey) : NostrProfile :=
  ⟨publicKeyHex keys, publicKeyNpub keys⟩

/-- Idealized Argon2id output: a derived key is characterized by the
secret material and salt it was derived from (the real KDF is
deterministic, and collision-free up to negligible probability). -/
structure DerivedKey where
  material : String
  salt : List Nat
deriving DecidableEq, Repr

/-- Minimum salt length accepted by the argon2 crate (MIN_SALT_LEN). -/
def MIN_SALT_LEN : Nat := 8

/-- Model of derive_key_from_password: Argon2id with the fixed parameters
of the source (64 MiB, 3 iterations, parallelism 1, 32-byte output);
derivation fails when the underlying KDF rejects its salt. -/
def derive_key_from_password (password : String) (salt : List Nat) :
    Except String DerivedKey :=
  if salt.length < MIN_SALT_LEN then
    .error "Key derivation failed: salt too short"
  else
    .ok ⟨password, salt⟩

/-- App-specific salt constant for device mode (DEVICE_MODE_APP_SALT). -/
def DEVICE_MODE_APP_SALT : List Nat :=
  strToBytes "msp-studio-device-key-v1"

/-- Model of SHA-256: a deterministic 32-byte digest. The keystore relies
only on determinism and output length of the hash. -/
def sha256Bytes (bs : List Nat) : List Nat :=
  (List.range 32).map (fun i => (bs.foldl (fun a b => a * 31 + b) 7 + i) % 256)

/-- Ambient inputs of one operation invocation: the stable machine id
(machine_uid::get), the freshly generated salt (SaltString::generate),
the freshly generated 24-byte nonce (thread_rng fill), and the current
unix time (get_current_timestamp). -/
structure Env where
  machineId : String
  freshSalt : String
  freshNonce : List Nat
  now : Nat
deriving Repr

/-- Model of derive_key_from_device: hash the machine id concatenated with
the app salt, truncate the digest to 16 bytes, and feed it as the salt of
the password KDF applied to the machine id. -/
def derive_key_from_device (env : Env) : Except String DerivedKey :=
  let machine_id := env.machineId
  let combined := strToBytes machine_id ++ DEVICE_MODE_APP_SALT
  let salt := sha256Bytes combined
  derive_key_from_password machine_id (salt.take 16)

/-- Idealized XChaCha20Poly1305 ciphertext: a sealed box recording the
sealing key, the nonce, and the plaintext. Opening succeeds exactly under
the sealing key and nonce. -/
structure SealedBox where
  key : DerivedKey
  nonce : List Nat
  plaintext : String
deriving DecidableEq, Repr

/-- Model of encrypt_nsec: seals the plaintext under the key with the
freshly generated 24-byte nonce and returns the (nonce, ciphertext) pair
(the base64 transport encoding of the two values is transparent at this
level). -/
def encrypt_nsec (nsec : String) (key : DerivedKey) (env : Env) :
    Except String (List Nat × SealedBox) :=
  let nonce_bytes := env.freshNonce
  .ok (nonce_bytes, ⟨key, nonce_bytes, nsec⟩)

/-- Model of decrypt_nsec at the keystore level: reject a nonce that is
not exactly 24 bytes, then open the sealed box, which succeeds exactly
when the key and nonce match the sealing ones and otherwise fails with
the single non-distinguishing authentication-failure message of the
source. -/
def decrypt_nsec (nonce : List Nat) (ct : SealedBox) (key : DerivedKey) :
    Except String String :=
  if nonce.length ≠ 24 then
    .error "Invalid nonce length"
  else if ct.key = key ∧ ct.nonce = nonce then
    .ok ct.plaintext
  else
    .error "Decryption failed - incorrect password or corrupted data"

/-- One stored entry of the v2 keystore (struct StoredKeyEntry). -/
structure StoredKeyEntry where
  pubkey : String
  mode : String
  nonce : List Nat
  ciphertext : SealedBox
  argon2_salt : String
  created_at : Nat
  label : Option String
deriving DecidableEq, Repr

/-- The v2 keystore aggregate (struct KeystoreFile). -/
structure KeystoreFile where
  version : Nat
  keys : List StoredKeyEntry
deriving DecidableEq, Repr

/-- The legacy v1 single-entry format (struct StoredKeyFileV1). -/
structure StoredKeyFileV1 where
  version : Nat
  mode : String
  nonce : List Nat
  ciphertext : SealedBox
  argon2_salt : String
  pubkey : String
  created_at : Nat
deriving DecidableEq, Repr

/-- Public listing entry (struct StoredKeyInfo): never exposes nonce,
ciphertext or salt. -/
structure StoredKeyInfo where
  pubkey : String
  mode : String
  created_at : Nat
  label : Option String
deriving DecidableEq, Repr

/-- Listing response (struct StoredKeysResponse). -/
structure StoredKeysResponse where
  keys : List StoredKeyInfo
deriving DecidableEq, Repr

/-- A persisted document, characterized by its two serde parse attempts:
as the current KeystoreFile schema and as the legacy StoredKeyFileV1
schema (load_keystore tries the two in this order). -/
structure RawDoc where
  asV2 : Option KeystoreFile
  asV1 : Option StoredKeyFileV1
deriving DecidableEq, Repr

/-- The file state: the keystore file is absent or holds a document. -/
abbrev FS := Option RawDoc

/-- Model of save_keystore: serialize the keystore and replace the file
wholesale. A document serialized from a KeystoreFile parses back as
exactly that KeystoreFile and does not parse under the legacy schema
(the v2 JSON has no top-level mode, nonce, ciphertext or salt fields). -/
def save_keystore (keystore : KeystoreFile) (_fs : FS) : FS :=
  some ⟨some keystore, none⟩

/-- The migration of one legacy record into a current-version keystore
holding exactly that entry with no label. -/
def migrateV1 (v1 : StoredKeyFileV1) : KeystoreFile :=
  ⟨2, [⟨v1.pubkey, v1.mode, v1.nonce, v1.ciphertext, v1.argon2_salt,
        v1.created_at, none⟩]⟩

/-- The legacy-parse fall-through of load_keystore: try the v1 parse,
migrate and persist the migrated form before returning, or fail with the
format error. -/
def tryMigrate (doc : RawDoc) : Except String KeystoreFile × FS :=
  match doc.asV1 with
  | some v1 => (.ok (migrateV1 v1), save_keystore (migrateV1 v1) (some doc))
  | none => (.error "Failed to parse keystore file", some doc)

/-- Model of load_keystore: an absent file is an empty v2 keystore; else
try the v2 parse and accept it when the version is 2; else fall through
to the legacy parse and migration. The updated file state is returned
alongside. -/
def load_keystore (fs : FS) : Except String KeystoreFile × FS :=
  match fs with
  | none => (.ok ⟨2, []⟩, none)
  | some doc =>
    match doc.asV2 with
    | some keystore =>
      if keystore.version = 2 then
        (.ok keystore, some doc)
      else
        tryMigrate doc
    | none => tryMigrate doc

/-- Model of list_stored_keys: load (which may migrate) and project every
entry to its public fields. -/
def list_stored_keys (fs : FS) : Except String StoredKeysResponse × FS :=
  match load_keystore fs with
  | (.error e, fs1) => (.error e, fs1)
  | (.ok keystore, fs1) =>
    (.ok ⟨keystore.keys.map (fun k => ⟨k.pubkey, k.mode, k.created_at, k.label⟩)⟩,
     fs1)

/-- Model of store_key_with_password: reject an empty password, validate
the nsec and derive its pubkey, load the keystore, drop any prior entry
with the same pubkey, derive the encryption key from the password and the
freshly generated salt, seal the nsec, append the new entry and save. -/
def store_key_with_password (nsec password : String) (label : Option String)
    (env : Env) (fs : FS) : Except String Unit × FS :=
  if password = "" then
    (.error "Password cannot be empty", fs)
  else
    match secretKeyFromBech32 nsec with
    | .error e => (.error e, fs)
    | .ok secret_key =>
      let pubkey := publicKeyHex secret_key
      match load_keystore fs with
      | (.error e, fs1) => (.error e, fs1)
      | (.ok keystore, fs1) =>
        let retained := keystore.keys.filter (fun k => k.pubkey != pubkey)
        let salt_str := env.freshSalt
        match derive_key_from_password password (strToBytes salt_str) with
        | .error e => (.error e, fs1)
        | .ok encryption_key =>
          match encrypt_nsec nsec encryption_key env with
          | .error e => (.error e, fs1)
          | .ok (nonce, ciphertext) =>
            let entry : StoredKeyEntry :=
              { pubkey := pubkey, mode := "password", nonce := nonce,
                ciphertext := ciphertext, argon2_salt := salt_str,
                created_at := env.now, label := label }
            (.ok (), save_keystore { keystore with keys := retained ++ [entry] } fs1)

/-- Model of store_key_without_password: as above with the device-derived
key, mode device, and an empty stored salt. -/
def store_key_without_password (nsec : String) (label : Option String)
    (env : Env) (fs : FS) : Except String Unit × FS :=
  match secretKeyFromBech32 nsec with
  | .error e => (.error e, fs)
  | .ok secret_key =>
    let pubkey := publicKeyHex secret_key
    match load_keystore fs with
    | (.error e, fs1) => (.error e, fs1)
    | (.ok keystore, fs1) =>
      let retained := keystore.keys.filter (fun k => k.pubkey != pubkey)
      match derive_key_from_device env with
      | .error e => (.error e, fs1)
      | .ok encryption_key =>
        match encrypt_nsec nsec encryption_key env with
        | .error e => (.error e, fs1)
        | .ok (nonce, ciphertext) =>
          let entry : StoredKeyEntry :=
            { pubkey := pubkey, mode := "device", nonce := nonce,
              ciphertext := ciphertext, argon2_salt := "",
              created_at := env.now, label := label }
          (.ok (), save_keystore { keystore with keys := retained ++ [entry] } fs1)

/-- The credential-dependent key derivation block of unlock_stored_key:
password mode requires a password and derives from it with the stored
salt, device mode derives from the machine id, any other mode string is
rejected. -/
def unlock_derive (entry : StoredKeyEntry) (password : Option String)
    (env : Env) : Except String DerivedKey :=
  if entry.mode = "password" then
    match password with
    | none => .error "Password required for this key"
    | some pw => derive_key_from_password pw (strToBytes entry.argon2_salt)
  else if entry.mode = "device" then
    derive_key_from_device env
  else
    .error ("Unknown storage mode: " ++ entry.mode)

/-- Model of unlock_stored_key: load, reject an empty keystore, select
the entry (by pubkey when given, else the first entry), derive the key
per the entry mode, decrypt, re-parse the recovered nsec, verify that its
derived pubkey equals the stored one, and log in. -/
def unlock_stored_key (pubkey password : Option String) (env : Env)
    (fs : FS) : Except String NostrProfile × FS :=
  match load_keystore fs with
  | (.error e, fs1) => (.error e, fs1)
  | (.ok keystore, fs1) =>
    match keystore.keys with
    | [] => (.error "No stored keys found", fs1)
    | first :: _ =>
      let entryE : Except String StoredKeyEntry :=
        match pubkey with
        | some pk =>
          match keystore.keys.find? (fun k => k.pubkey == pk) with
          | some e => .ok e
          | none => .error ("Key not found: " ++ pk)
        | none => .ok first
      match entryE with
      | .error e => (.error e, fs1)
      | .ok entry =>
        match unlock_derive entry password env with
        | .error e => (.error e, fs1)
        | .ok decryption_key =>
          match decrypt_nsec entry.nonce entry.ciphertext decryption_key with
          | .error e => (.error e, fs1)
          | .ok nsec =>
            match secretKeyFromBech32 nsec with
            | .error e => (.error e, fs1)
            | .ok secret_key =>
              let keys := secret_key
              let actual_pubkey := publicKeyHex keys
              if actual_pubkey ≠ entry.pubkey then
                (.error "Key verification failed - pubkey mismatch", fs1)
              else
                (.ok (login_with_keys keys), fs1)

/-- Model of remove_stored_key: load, drop entries with the pubkey, fail
without saving when nothing was dropped, else save. -/
def remove_stored_key (pubkey : String) (fs : FS) : Except String Unit × FS :=
  match load_keystore fs with
  | (.error e, fs1) => (.error e, fs1)
  | (.ok keystore, fs1) =>
    let original_len := keystore.keys.length
    let retained := keystore.keys.filter (fun k => k.pubkey != pubkey)
    if retained.length = original_len then
      (.error ("Key not found: " ++ pubkey), fs1)
    else
      (.ok (), save_keystore { keystore with keys := retained } fs1)

/-- Model of clear_stored_key: delete the keystore file (succeeds whether
or not it exists). -/
def clear_stored_key (_fs : FS) : Except String Unit × FS :=
  (.ok (), none)

/-- Relabel the first entry with the given pubkey (iter_mut().find of the
source mutates exactly the first match), returning none when absent. -/
def setLabelFirst : List StoredKeyEntry → String → Option String →
    Option (List StoredKeyEntry)
  | [], _, _ => none
  | k :: rest, pk, lbl =>
    if k.pubkey = pk then
      some ({ k with label := lbl } :: rest)
    else
      (setLabelFirst rest pk lbl).map (k :: ·)

/-- Model of update_key_label: load, relabel the matching entry in place,
fail when absent, else save. -/
def update_key_label (pubkey : String) (label : Option String) (fs : FS) :
    Except String Unit × FS :=
  match load_keystore fs with
  | (.error e, fs1) => (.error e, fs1)
  | (.ok keystore, fs1) =>
    match setLabelFirst keystore.keys pubkey label with
    | none => (.error ("Key not found: " ++ pubkey), fs1)
    | some keys2 => (.ok (), save_keystore { keystore with keys := keys2 } fs1)

/-- The credential-dependent key derivation block of change_key_password
(same shape as the unlock one, with the message of the source). -/
def change_derive (entry : StoredKeyEntry) (current_password : Option String)
    (env : Env) : Except String DerivedKey :=
  if entry.mode = "password" then
    match current_password with
    | none => .error "Current password required"
    | some pw => derive_key_from_password pw (strToBytes entry.argon2_salt)
  else if entry.mode = "device" then
    derive_key_from_device env
  else
    .error ("Unknown storage mode: " ++ entry.mode)

/-- Model of change_key_password: load, find the entry, derive the current
key per its mode, decrypt, and re-store the recovered nsec under the new
protection (a non-empty new password selects password mode, anything else
selects device mode), preserving the label of the old entry. -/
def change_key_password (pubkey : String)
    (current_password new_password : Option String) (env : Env) (fs : FS) :
    Except String Unit × FS :=
  match load_keystore fs with
  | (.error e, fs1) => (.error e, fs1)
  | (.ok keystore, fs1) =>
    match keystore.keys.find? (fun k => k.pubkey == pubkey) with
    | none => (.error ("Key not found: " ++ pubkey), fs1)
    | some entry =>
      match change_derive entry current_password env with
      | .error e => (.error e, fs1)
      | .ok decryption_key =>
        match decrypt_nsec entry.nonce entry.ciphertext decryption_key with
        | .error e => (.error e, fs1)
        | .ok nsec =>
          let label := entry.label
          match new_password with
          | some p =>
            if p ≠ "" then
              store_key_with_password nsec p label env fs1
            else
              store_key_without_password nsec label env fs1
          | none => store_key_without_password nsec label env fs1

/-! Helper views used by the statements below. -/

/-- The entries of the keystore as seen through a successful load (empty
when the file does not parse). -/
def loadedKeys (fs : FS) : List StoredKeyEntry :=
  match (load_keystore fs).1 with
  | .ok keystore => keystore.keys
  | .error _ => []

/-- The uniqueness invariant of the data model: no two entries share a
pubkey. -/
def pubkeysNodup (keystore : KeystoreFile) : Prop :=
  (keystore.keys.map (fun k => k.pubkey)).Nodup

/-- The invariant on the persisted file state: whatever parses under the
current schema has pairwise distinct pubkeys. -/
def FSInv : FS → Prop
  | none => True
  | some doc =>
    match doc.asV2 with
    | none => True
    | some keystore => pubkeysNodup keystore

instance : (fs : FS) → Decidable (FSInv fs)
  | none => isTrue trivial
  | some ⟨none, _⟩ => isTrue trivial
  | some ⟨some ks, _⟩ =>
    inferInstanceAs
      (Decidable ((ks.keys.map (fun k : StoredKeyEntry => k.pubkey)).Nodup))

/-- One keystore-manager operation together with its ambient inputs. -/
inductive KsOp where
  | storePw (nsec password : String) (label : Option String)
  | storeDev (nsec : String) (label : Option String)
  | unlock (pubkey password : Option String)
  | removeKey (pubkey : String)
  | relabel (pubkey : String) (label : Option String)
  | changePw (pubkey : String) (current new : Option String)
  | listKeys
  | clearAll

/-- The file state left behind by one operation (error outcomes keep the
state the operation had reached, as the source leaves whatever writes
already happened). -/
def stepOp (op : KsOp) (env : Env) (fs : FS) : FS :=
  match op with
  | .storePw n p l => (store_key_with_password n p l env fs).2
  | .storeDev n l => (store_key_without_password n l env fs).2
  | .unlock pk pw => (unlock_stored_key pk pw env fs).2
  | .removeKey pk => (remove_stored_key pk fs).2
  | .relabel pk l => (update_key_label pk l fs).2
  | .changePw pk c n2 => (change_key_password pk c n2 env fs).2
  | .listKeys => (list_stored_keys fs).2
  | .clearAll => (clear_stored_key fs).2

/-- Run a sequence of operations against the file state. -/
def runOps : List (KsOp × Env) → FS → FS
  | [], fs => fs
  | (op, env) :: rest, fs => runOps rest (stepOp op env fs)

/-! Byte-level model of decrypt_nsec, for the robustness analysis of its
string inputs. Here the base64 codec is modelled concretely (standard
alphabet, strict padding, as the base64 crate decodes), the nonce
constructor XNonce::from_slice is modelled with its real behaviour of
aborting on a slice that is not exactly 24 bytes, and UTF-8 validation is
modelled on its ASCII fragment (the analysis relies only on its
partiality). -/

/-- Value of one character of the standard base64 alphabet. -/
def b64CharValue (c : Char) : Option Nat :=
  if 'A' ≤ c ∧ c ≤ 'Z' then some (c.toNat - 65)
  else if 'a' ≤ c ∧ c ≤ 'z' then some (c.toNat - 97 + 26)
  else if '0' ≤ c ∧ c ≤ '9' then some (c.toNat - 48 + 52)
  else if c = '+' then some 62
  else if c = '/' then some 63
  else none

/-- Decode base64 text four characters at a time, with strict padding:
anything that is not a sequence of full quartets over the alphabet, with
padding only in the final quartet, is rejected. -/
def b64DecodeGo : List Char → Option (List Nat)
  | [] => some []
  | c1 :: c2 :: c3 :: c4 :: rest =>
    match b64CharValue c1, b64CharValue c2 with
    | some v1, some v2 =>
      if c3 = '=' then
        if c4 = '=' ∧ rest = [] then some [v1 * 4 + v2 / 16] else none
      else
        match b64CharValue c3 with
        | some v3 =>
          if c4 = '=' then
            if rest = [] then some [v1 * 4 + v2 / 16, (v2 % 16) * 16 + v3 / 4]
            else none
          else
            match b64CharValue c4 with
            | some v4 =>
              (b64DecodeGo rest).map
                (fun bs => (v1 * 4 + v2 / 16) :: ((v2 % 16) * 16 + v3 / 4) ::
                  ((v3 % 4) * 64 + v4) :: bs)
            | none => none
        | none => none
    | _, _ => none
  | _ => none

/-- Model of BASE64.decode of the source. -/
def b64Decode (s : String) : Option (List Nat) :=
  b64DecodeGo s.data

/-- Injective byte encoding of a derived key and nonce, the authentication
material of the idealized AEAD at the byte level. -/
def keyNonceBytes (key : DerivedKey) (nonce : List Nat) : List Nat :=
  key.material.length :: strToBytes key.material ++
    key.salt.length :: key.salt ++ nonce

/-- Idealized XChaCha20Poly1305 open at the byte level: a ciphertext is
accepted exactly when it carries the authentication material of this key
and nonce, and the remaining bytes are the plaintext. -/
def aeadOpenBytes (key : DerivedKey) (nonce : List Nat) (ct : List Nat) :
    Option (List Nat) :=
  let tag := keyNonceBytes key nonce
  if ct.take tag.length = tag then some (ct.drop tag.length) else none

/-- ASCII-fragment model of String::from_utf8: bytes decode exactly when
every byte is below 128. -/
def utf8DecodeBytes (bs : List Nat) : Option String :=
  if bs.all (fun b => b < 128) then some ⟨bs.map Char.ofNat⟩ else none

/-- Outcome of a Rust computation, distinguishing a returned error value
from an abort of the process. -/
inductive RustOutcome (α : Type) where
  | ok (a : α)
  | err (e : String)
  | panicked
deriving DecidableEq, Repr

/-- Model of XNonce::from_slice: aborts unless the slice is exactly the
nonce width of 24 bytes. -/
def xnonceFromSlice (bs : List Nat) : RustOutcome (List Nat) :=
  if bs.length = 24 then .ok bs else .panicked

/-- Byte-level model of decrypt_nsec: decode the nonce from base64, guard
its length, construct the nonce, decode the ciphertext from base64, open
it, and validate the plaintext bytes as UTF-8. The error detail strings
of the external codec are abstracted to fixed text. -/
def decrypt_nsec_bytes (nonce_b64 ciphertext_b64 : String)
    (key : DerivedKey) : RustOutcome String :=
  match b64Decode nonce_b64 with
  | none => .err "Invalid nonce: invalid base64"
  | some nonce_bytes =>
    if nonce_bytes.length ≠ 24 then .err "Invalid nonce length"
    else
      match xnonceFromSlice nonce_bytes with
      | .panicked => .panicked
      | .err e => .err e
      | .ok nonce =>
        match b64Decode ciphertext_b64 with
        | none => .err "Invalid ciphertext: invalid base64"
        | some ciphertext =>
          match aeadOpenBytes key nonce ciphertext with
          | none => .err "Decryption failed - incorrect password or corrupted data"
          | some plaintext =>
            match utf8DecodeBytes plaintext with
            | some s => .ok s
            | none => .err "Invalid UTF-8: invalid byte"

/-! Concrete example values used to evaluate the development on closed
inputs. -/

/-- A well-formed environment: 24-byte nonce, 10-character salt. -/
def envW : Env := ⟨"machine", "abcdefghij", List.replicate 24 0, 100⟩

/-- A second well-formed environment with distinct ambient values. -/
def envW2 : Env := ⟨"machine", "ABCDEFGHIJ", List.replicate 24 1, 200⟩

/-- File state after storing the key nsec17 under password pw with label
main, starting from an absent file. -/
def fsStored : FS :=
  (store_key_with_password "nsec17" "pw" (some "main") envW none).2

/-- An entry whose stored pubkey does not match the key sealed inside its
ciphertext (the sealed nsec derives pub7, the entry claims pub999). -/
def tamperedEntry : StoredKeyEntry :=
  ⟨"pub999", "password", List.replicate 24 0,
   ⟨⟨"p", strToBytes "abcdefgh"⟩, List.replicate 24 0, "nsec17"⟩,
   "abcdefgh", 0, none⟩

/-- File state holding only the tampered entry. -/
def fsTampered : FS := some ⟨some ⟨2, [tamperedEntry]⟩, none⟩

/-- An honest password-mode entry for pub7, created at time 100. -/
def honestEntry : StoredKeyEntry :=
  ⟨"pub7", "password", List.replicate 24 0,
   ⟨⟨"p", strToBytes "abcdefgh"⟩, List.replicate 24 0, "nsec17"⟩,
   "abcdefgh", 100, some "main"⟩

/-- File state holding only the honest entry. -/
def fsHonest : FS := some ⟨some ⟨2, [honestEntry]⟩, none⟩

/-- The device key derived for the machine id of the example
environments. -/
def deviceKeyW : DerivedKey :=
  ⟨"machine",
   (sha256Bytes (strToBytes "machine" ++ DEVICE_MODE_APP_SALT)).take 16⟩

/-- An honest device-mode entry for pub7, created at time 100. -/
def honestDevEntry : StoredKeyEntry :=
  ⟨"pub7", "device", List.replicate 24 0,
   ⟨deviceKeyW, List.replicate 24 0, "nsec17"⟩, "", 100, some "dev"⟩

/-- File state holding only the honest device-mode entry. -/
def fsDevHonest : FS := some ⟨some ⟨2, [honestDevEntry]⟩, none⟩

/-- The entry produced by the store of fsStored, written out. -/
def storedEntryW : StoredKeyEntry :=
  ⟨"pub7", "password", List.replicate 24 0,
   ⟨⟨"pw", strToBytes "abcdefghij"⟩, List.replicate 24 0, "nsec17"⟩,
   "abcdefghij", 100, some "main"⟩

/-- The keystore persisted in fsStored, written out. -/
def ksStoredW : KeystoreFile := ⟨2, [storedEntryW]⟩

/-- A legacy v1 record used to evaluate the migration path. -/
def v1Doc : StoredKeyFileV1 :=
  ⟨1, "password", List.replicate 24 0,
   ⟨⟨"p", strToBytes "abcdefgh"⟩, List.replicate 24 0, "nsec17"⟩,
   "abcdefgh", "pub7", 50⟩

/-! Foundation lemmas about loading, saving and the uniqueness invariant. -/

theorem strToBytes_length (s : String) : (strToBytes s).length = s.length := by
  show (s.data.map Char.toNat).length = s.length
  rw [List.length_map]
  rfl

theorem migrateV1_nodup (v1 : StoredKeyFileV1) : pubkeysNodup (migrateV1 v1) := by
  simp [pubkeysNodup, migrateV1]

theorem tryMigrate_ok_version {doc : RawDoc} {ks : KeystoreFile} {fs1 : FS}
    (h : tryMigrate doc = (.ok ks, fs1)) : ks.version = 2 := by
  unfold tryMigrate at h
  cases hv : doc.asV1 with
  | none => rw [hv] at h; simp at h
  | some v1 =>
    rw [hv] at h
    simp at h
    obtain ⟨h1, -⟩ := h
    rw [← h1]
    rfl

theorem load_ok_version {fs fs1 : FS} {ks : KeystoreFile}
    (h : load_keystore fs = (.ok ks, fs1)) : ks.version = 2 := by
  cases fs with
  | none =>
    simp [load_keystore] at h
    obtain ⟨h1, -⟩ := h
    rw [← h1]
  | some doc =>
    cases hv2 : doc.asV2 with
    | none =>
      simp [load_keystore, hv2] at h
      exact tryMigrate_ok_version h
    | some k2 =>
      by_cases hv : k2.version = 2
      · simp [load_keystore, hv2, hv] at h
        obtain ⟨h1, -⟩ := h
        rw [← h1]
        exact hv
      · simp [load_keystore, hv2, hv] at h
        exact tryMigrate_ok_version h

theorem load_keystore_idem (fs : FS) :
    load_keystore (load_keystore fs).2 = load_keystore fs := by
  cases fs with
  | none => rfl
  | some doc =>
    cases hv2 : doc.asV2 with
    | none =>
      simp [load_keystore, hv2]
      cases hv1 : doc.asV1 with
      | none => simp [tryMigrate, hv1, load_keystore, hv2]
      | some v1 => simp [tryMigrate, hv1, save_keystore, load_keystore, migrateV1]
    | some k2 =>
      by_cases hv : k2.version = 2
      · simp [load_keystore, hv2, hv]
      · simp [load_keystore, hv2, hv]
        cases hv1 : doc.asV1 with
        | none => simp [tryMigrate, hv1, load_keystore, hv2, hv]
        | some v1 => simp [tryMigrate, hv1, save_keystore, load_keystore, migrateV1]

theorem load_save {ks : KeystoreFile} (h : ks.version = 2) (fs : FS) :
    load_keystore (save_keystore ks fs) = (.ok ks, save_keystore ks fs) := by
  simp [load_keystore, save_keystore, h]

theorem loadedKeys_load_snd (fs : FS) :
    loadedKeys (load_keystore fs).2 = loadedKeys fs := by
  unfold loadedKeys
  rw [load_keystore_idem]

theorem FSInv_save {ks : KeystoreFile} (fs : FS) (h : pubkeysNodup ks) :
    FSInv (save_keystore ks fs) := h

theorem FSInv_none : FSInv none := trivial

theorem tryMigrate_ok_nodup {doc : RawDoc} {ks : KeystoreFile} {fs1 : FS}
    (h : tryMigrate doc = (.ok ks, fs1)) : pubkeysNodup ks := by
  unfold tryMigrate at h
  cases hv : doc.asV1 with
  | none => rw [hv] at h; simp at h
  | some v1 =>
    rw [hv] at h
    simp at h
    obtain ⟨h1, -⟩ := h
    rw [← h1]
    exact migrateV1_nodup v1

theorem tryMigrate_snd_inv (doc : RawDoc) (hinv : FSInv (some doc)) :
    FSInv (tryMigrate doc).2 := by
  unfold tryMigrate
  cases hv : doc.asV1 with
  | none => exact hinv
  | some v1 => exact FSInv_save (some doc) (migrateV1_nodup v1)

theorem load_ok_nodup {fs fs1 : FS} {ks : KeystoreFile} (hinv : FSInv fs)
    (h : load_keystore fs = (.ok ks, fs1)) : pubkeysNodup ks := by
  cases fs with
  | none =>
    simp [load_keystore] at h
    obtain ⟨h1, -⟩ := h
    rw [← h1]
    simp [pubkeysNodup]
  | some doc =>
    cases hv2 : doc.asV2 with
    | none =>
      simp [load_keystore, hv2] at h
      exact tryMigrate_ok_nodup h
    | some k2 =>
      by_cases hv : k2.version = 2
      · simp [load_keystore, hv2, hv] at h
        obtain ⟨h1, -⟩ := h
        rw [← h1]
        simp only [FSInv, hv2] at hinv
        exact hinv
      · simp [load_keystore, hv2, hv] at h
        exact tryMigrate_ok_nodup h

theorem FSInv_load_snd {fs : FS} (hinv : FSInv fs) :
    FSInv (load_keystore fs).2 := by
  cases fs with
  | none => exact FSInv_none
  | some doc =>
    cases hv2 : doc.asV2 with
    | none =>
      simp only [load_keystore, hv2]
      exact tryMigrate_snd_inv doc hinv
    | some k2 =>
      by_cases hv : k2.version = 2
      · simp only [load_keystore, hv2, hv, if_pos]
        exact hinv
      · simp only [load_keystore, hv2, hv, if_neg, if_false]
        exact tryMigrate_snd_inv doc hinv

/-! List lemmas about the pubkey projection. -/

theorem mem_filter_ne {l : List StoredKeyEntry} {x : String} {k : StoredKeyEntry}
    (h : k ∈ l.filter (fun k => k.pubkey != x)) : k.pubkey ≠ x := by
  have := List.of_mem_filter h
  simpa [bne_iff_ne] using this

theorem nodup_filter_map {l : List StoredKeyEntry} {x : String}
    (h : (l.map (fun k => k.pubkey)).Nodup) :
    ((l.filter (fun k => k.pubkey != x)).map (fun k => k.pubkey)).Nodup :=
  List.Nodup.sublist (List.Sublist.map _ (List.filter_sublist l)) h

theorem nodup_store_keys {l : List StoredKeyEntry} {e : StoredKeyEntry}
    {x : String} (he : e.pubkey = x)
    (h : (l.map (fun k => k.pubkey)).Nodup) :
    (((l.filter (fun k => k.pubkey != x)) ++ [e]).map
      (fun k => k.pubkey)).Nodup := by
  rw [List.map_append]
  refine List.Nodup.append (nodup_filter_map h) (by simp) ?_
  intro a ha hb
  simp at hb
  subst hb
  obtain ⟨k, hk, hpk⟩ := List.mem_map.mp ha
  exact mem_filter_ne hk (by rw [hpk, he])

theorem filter_ne_eq_self {l : List StoredKeyEntry} {x : String}
    (h : x ∉ l.map (fun k => k.pubkey)) :
    l.filter (fun k => k.pubkey != x) = l := by
  apply List.filter_eq_self.mpr
  intro k hk
  simp only [bne_iff_ne, ne_eq, decide_eq_true_eq]
  intro he
  exact h (by rw [← he]; exact List.mem_map_of_mem _ hk)

theorem filter_ne_length_of_mem {l : List StoredKeyEntry} {x : String}
    (hnd : (l.map (fun k => k.pubkey)).Nodup)
    (hmem : x ∈ l.map (fun k => k.pubkey)) :
    (l.filter (fun k => k.pubkey != x)).length + 1 = l.length := by
  induction l with
  | nil => simp at hmem
  | cons a l ih =>
    simp only [List.map_cons, List.nodup_cons] at hnd
    simp only [List.map_cons, List.mem_cons] at hmem
    by_cases hax : a.pubkey = x
    · rw [List.filter_cons, if_neg (by simp [hax])]
      rw [filter_ne_eq_self (by rw [← hax]; exact hnd.1)]
      simp
    · rw [List.filter_cons, if_pos (by simp [bne_iff_ne]; exact hax)]
      have hm : x ∈ l.map (fun k => k.pubkey) := by
        cases hmem with
        | inl h => exact absurd h.symm hax
        | inr h => exact h
      have := ih hnd.2 hm
      simp only [List.length_cons]
      omega

theorem count_pubkey_after_store {l : List StoredKeyEntry} {e : StoredKeyEntry}
    {x : String} (he : e.pubkey = x) :
    (((l.filter (fun k => k.pubkey != x)) ++ [e]).map
      (fun k => k.pubkey)).count x = 1 := by
  rw [List.map_append, List.count_append]
  have h0 : ((l.filter (fun k => k.pubkey != x)).map
      (fun k => k.pubkey)).count x = 0 := by
    apply List.count_eq_zero.mpr
    intro hmem
    obtain ⟨k, hk, hpk⟩ := List.mem_map.mp hmem
    exact mem_filter_ne hk hpk
  rw [h0]
  simp [he]

theorem setLabelFirst_map {α : Type} (f : StoredKeyEntry → α)
    (hf : ∀ k lbl2, f { k with label := lbl2 } = f k)
    {l l2 : List StoredKeyEntry} {pk : String} {lbl : Option String}
    (h : setLabelFirst l pk lbl = some l2) :
    l2.map f = l.map f := by
  induction l generalizing l2 with
  | nil => simp [setLabelFirst] at h
  | cons a l ih =>
    unfold setLabelFirst at h
    by_cases hp : a.pubkey = pk
    · rw [if_pos hp] at h
      simp at h
      rw [← h]
      simp [hf]
    · rw [if_neg hp] at h
      obtain ⟨l3, hl3, rfl⟩ := Option.map_eq_some'.mp h
      simp [ih hl3]

theorem filter_eq_after_replace {l : List StoredKeyEntry}
    {e : StoredKeyEntry} {x : String} (he : e.pubkey = x) :
    ((l.filter (fun k => k.pubkey != x)) ++ [e]).filter
      (fun k => k.pubkey == x) = [e] := by
  rw [List.filter_append]
  have h1 : (l.filter (fun k => k.pubkey != x)).filter
      (fun k => k.pubkey == x) = [] := by
    rw [List.filter_eq_nil_iff]
    intro a ha
    simp [mem_filter_ne ha]
  rw [h1]
  simp [List.filter, he]

theorem find?_append_last {l : List StoredKeyEntry} {e : StoredKeyEntry}
    {x : String} (h : ∀ k ∈ l, k.pubkey ≠ x) (he : e.pubkey = x) :
    (l ++ [e]).find? (fun k => k.pubkey == x) = some e := by
  induction l with
  | nil => simp [List.find?, he]
  | cons a l ih =>
    have ha : (a.pubkey == x) = false := by
      simp only [beq_eq_false_iff_ne, ne_eq]
      exact h a (by simp)
    simp only [List.cons_append, List.find?]
    rw [ha]
    exact ih (fun k hk => h k (by simp [hk]))

/-! Unfolding lemmas for the keystore operations. -/

theorem store_key_with_password_ok
    {nsec password : String} {label : Option String} {env : Env} {fs fs1 : FS}
    {ks0 : KeystoreFile} {sk : SecretKey}
    (hP : password ≠ "")
    (hS : secretKeyFromBech32 nsec = .ok sk)
    (hload : load_keystore fs = (.ok ks0, fs1))
    (hsalt : MIN_SALT_LEN ≤ env.freshSalt.length) :
    store_key_with_password nsec password label env fs =
      (.ok (), save_keystore
        { ks0 with keys :=
            ks0.keys.filter (fun k => k.pubkey != publicKeyHex sk) ++
              [⟨publicKeyHex sk, "password", env.freshNonce,
                ⟨⟨password, strToBytes env.freshSalt⟩, env.freshNonce, nsec⟩,
                env.freshSalt, env.now, label⟩] } fs1) := by
  have hcond : ¬ (strToBytes env.freshSalt).length < MIN_SALT_LEN := by
    rw [strToBytes_length]; omega
  simp only [store_key_with_password, derive_key_from_password, encrypt_nsec,
    hS, hload, if_neg hP, if_neg hcond]

theorem derive_key_from_device_ok (env : Env) :
    derive_key_from_device env =
      .ok ⟨env.machineId,
        (sha256Bytes (strToBytes env.machineId ++ DEVICE_MODE_APP_SALT)).take 16⟩ := by
  unfold derive_key_from_device derive_key_from_password
  rw [if_neg]
  simp [sha256Bytes, MIN_SALT_LEN]

theorem store_key_without_password_ok
    {nsec : String} {label : Option String} {env : Env} {fs fs1 : FS}
    {ks0 : KeystoreFile} {sk : SecretKey}
    (hS : secretKeyFromBech32 nsec = .ok sk)
    (hload : load_keystore fs = (.ok ks0, fs1)) :
    store_key_without_password nsec label env fs =
      (.ok (), save_keystore
        { ks0 with keys :=
            ks0.keys.filter (fun k => k.pubkey != publicKeyHex sk) ++
              [⟨publicKeyHex sk, "device", env.freshNonce,
                ⟨⟨env.machineId,
                   (sha256Bytes (strToBytes env.machineId ++
                     DEVICE_MODE_APP_SALT)).take 16⟩,
                 env.freshNonce, nsec⟩,
                "", env.now, label⟩] } fs1) := by
  simp only [store_key_without_password, encrypt_nsec, hS, hload,
    derive_key_from_device_ok]

theorem unlock_stored_key_ok
    {fs fs3 : FS} {ks2 : KeystoreFile} {pk : String} {e : StoredKeyEntry}
    {pw : Option String} {env : Env} {dk : DerivedKey} {S : String}
    {sk : SecretKey}
    (hload : load_keystore fs = (.ok ks2, fs3))
    (hfind : ks2.keys.find? (fun k => k.pubkey == pk) = some e)
    (hderive : unlock_derive e pw env = .ok dk)
    (hdec : decrypt_nsec e.nonce e.ciphertext dk = .ok S)
    (hparse : secretKeyFromBech32 S = .ok sk)
    (hver : publicKeyHex sk = e.pubkey) :
    unlock_stored_key (some pk) pw env fs = (.ok (login_with_keys sk), fs3) := by
  simp only [unlock_stored_key, hload]
  cases hk : ks2.keys with
  | nil => rw [hk] at hfind; simp [List.find?] at hfind
  | cons a l =>
    rw [hk] at hfind
    simp only [hfind, hderive, hdec, hparse]
    rw [if_neg (by simp [hver])]

theorem unlock_stored_key_verification_error
    {fs fs3 : FS} {ks2 : KeystoreFile} {pk : String} {e : StoredKeyEntry}
    {pw : Option String} {env : Env} {dk : DerivedKey} {S : String}
    {sk : SecretKey}
    (hload : load_keystore fs = (.ok ks2, fs3))
    (hfind : ks2.keys.find? (fun k => k.pubkey == pk) = some e)
    (hderive : unlock_derive e pw env = .ok dk)
    (hdec : decrypt_nsec e.nonce e.ciphertext dk = .ok S)
    (hparse : secretKeyFromBech32 S = .ok sk)
    (hver : publicKeyHex sk ≠ e.pubkey) :
    unlock_stored_key (some pk) pw env fs =
      (.error "Key verification failed - pubkey mismatch", fs3) := by
  simp only [unlock_stored_key, hload]
  cases hk : ks2.keys with
  | nil => rw [hk] at hfind; simp [List.find?] at hfind
  | cons a l =>
    rw [hk] at hfind
    simp only [hfind, hderive, hdec, hparse]
    rw [if_pos hver]

theorem unlock_stored_key_decrypt_error
    {fs fs3 : FS} {ks2 : KeystoreFile} {pk : String} {e : StoredKeyEntry}
    {pw : Option String} {env : Env} {dk : DerivedKey} {msg : String}
    (hload : load_keystore fs = (.ok ks2, fs3))
    (hfind : ks2.keys.find? (fun k => k.pubkey == pk) = some e)
    (hderive : unlock_derive e pw env = .ok dk)
    (hdec : decrypt_nsec e.nonce e.ciphertext dk = .error msg) :
    unlock_stored_key (some pk) pw env fs = (.error msg, fs3) := by
  simp only [unlock_stored_key, hload]
  cases hk : ks2.keys with
  | nil => rw [hk] at hfind; simp [List.find?] at hfind
  | cons a l =>
    rw [hk] at hfind
    simp only [hfind, hderive, hdec]

theorem remove_stored_key_present
    {pk : String} {fs fs1 : FS} {ks0 : KeystoreFile}
    (hload : load_keystore fs = (.ok ks0, fs1))
    (hnd : pubkeysNodup ks0)
    (hmem : pk ∈ ks0.keys.map (fun k => k.pubkey)) :
    remove_stored_key pk fs =
      (.ok (), save_keystore
        { ks0 with keys := ks0.keys.filter (fun k => k.pubkey != pk) } fs1) := by
  have hlen := filter_ne_length_of_mem hnd hmem
  simp only [remove_stored_key, hload]
  rw [if_neg (by omega)]

theorem remove_stored_key_absent
    {pk : String} {fs fs1 : FS} {ks0 : KeystoreFile}
    (hload : load_keystore fs = (.ok ks0, fs1))
    (hmem : pk ∉ ks0.keys.map (fun k => k.pubkey)) :
    remove_stored_key pk fs = (.error ("Key not found: " ++ pk), fs1) := by
  simp only [remove_stored_key, hload]
  rw [filter_ne_eq_self hmem, if_pos rfl]

theorem change_key_password_unfolds
    {pk : String} {cur new : Option String} {env : Env} {fs fs1 : FS}
    {ks0 : KeystoreFile} {e : StoredKeyEntry} {dk : DerivedKey} {S : String}
    (hload : load_keystore fs = (.ok ks0, fs1))
    (hfind : ks0.keys.find? (fun k => k.pubkey == pk) = some e)
    (hderive : change_derive e cur env = .ok dk)
    (hdec : decrypt_nsec e.nonce e.ciphertext dk = .ok S) :
    change_key_password pk cur new env fs =
      match new with
      | some p =>
        if p ≠ "" then store_key_with_password S p e.label env fs1
        else store_key_without_password S e.label env fs1
      | none => store_key_without_password S e.label env fs1 := by
  simp only [change_key_password, hload, hfind, hderive, hdec]

/-! Preservation of the uniqueness invariant by every operation. -/

theorem FSInv_store_pw {nsec password : String} {label : Option String}
    {env : Env} {fs : FS} (hinv : FSInv fs) :
    FSInv (store_key_with_password nsec password label env fs).2 := by
  unfold store_key_with_password derive_key_from_password encrypt_nsec
  split
  · exact hinv
  · split
    · exact hinv
    · split
      · next e fs1 heq =>
        have : (load_keystore fs).2 = fs1 := by rw [heq]
        rw [← this]
        exact FSInv_load_snd hinv
      · next ks0 fs1 heq =>
        have h2 : (load_keystore fs).2 = fs1 := by rw [heq]
        have hinv1 : FSInv fs1 := by rw [← h2]; exact FSInv_load_snd hinv
        have hnd : pubkeysNodup ks0 := load_ok_nodup hinv heq
        dsimp only
        split
        · exact hinv1
        · apply FSInv_save fs1
          exact nodup_store_keys rfl hnd

theorem FSInv_store_dev {nsec : String} {label : Option String}
    {env : Env} {fs : FS} (hinv : FSInv fs) :
    FSInv (store_key_without_password nsec label env fs).2 := by
  unfold store_key_without_password derive_key_from_device
    derive_key_from_password encrypt_nsec
  split
  · exact hinv
  · split
    · next e fs1 heq =>
      have : (load_keystore fs).2 = fs1 := by rw [heq]
      rw [← this]
      exact FSInv_load_snd hinv
    · next ks0 fs1 heq =>
      have h2 : (load_keystore fs).2 = fs1 := by rw [heq]
      have hinv1 : FSInv fs1 := by rw [← h2]; exact FSInv_load_snd hinv
      have hnd : pubkeysNodup ks0 := load_ok_nodup hinv heq
      dsimp only
      split
      · exact hinv1
      · apply FSInv_save fs1
        exact nodup_store_keys rfl hnd

theorem FSInv_unlock {pk pw : Option String} {env : Env} {fs : FS}
    (hinv : FSInv fs) :
    FSInv (unlock_stored_key pk pw env fs).2 := by
  unfold unlock_stored_key
  split
  · next e fs1 heq =>
    have : (load_keystore fs).2 = fs1 := by rw [heq]
    rw [← this]
    exact FSInv_load_snd hinv
  · next ks0 fs1 heq =>
    have h2 : (load_keystore fs).2 = fs1 := by rw [heq]
    have hinv1 : FSInv fs1 := by rw [← h2]; exact FSInv_load_snd hinv
    split
    · exact hinv1
    · dsimp only
      split
      · exact hinv1
      · split
        · exact hinv1
        · split
          · exact hinv1
          · split
            · exact hinv1
            · split
              · exact hinv1
              · exact hinv1

theorem FSInv_remove {pk : String} {fs : FS} (hinv : FSInv fs) :
    FSInv (remove_stored_key pk fs).2 := by
  unfold remove_stored_key
  split
  · next e fs1 heq =>
    have : (load_keystore fs).2 = fs1 := by rw [heq]
    rw [← this]
    exact FSInv_load_snd hinv
  · next ks0 fs1 heq =>
    have h2 : (load_keystore fs).2 = fs1 := by rw [heq]
    have hinv1 : FSInv fs1 := by rw [← h2]; exact FSInv_load_snd hinv
    have hnd : pubkeysNodup ks0 := load_ok_nodup hinv heq
    dsimp only
    split
    · exact hinv1
    · apply FSInv_save fs1
      exact nodup_filter_map hnd

theorem FSInv_relabel {pk : String} {label : Option String} {fs : FS}
    (hinv : FSInv fs) :
    FSInv (update_key_label pk label fs).2 := by
  unfold update_key_label
  split
  · next e fs1 heq =>
    have : (load_keystore fs).2 = fs1 := by rw [heq]
    rw [← this]
    exact FSInv_load_snd hinv
  · next ks0 fs1 heq =>
    have h2 : (load_keystore fs).2 = fs1 := by rw [heq]
    have hinv1 : FSInv fs1 := by rw [← h2]; exact FSInv_load_snd hinv
    have hnd : pubkeysNodup ks0 := load_ok_nodup hinv heq
    split
    · exact hinv1
    · next keys2 hset =>
      apply FSInv_save fs1
      show (keys2.map (fun k => k.pubkey)).Nodup
      rw [setLabelFirst_map (fun k => k.pubkey) (fun k lbl2 => rfl) hset]
      exact hnd

theorem FSInv_change {pk : String} {cur new : Option String} {env : Env}
    {fs : FS} (hinv : FSInv fs) :
    FSInv (change_key_password pk cur new env fs).2 := by
  unfold change_key_password
  split
  · next e fs1 heq =>
    have : (load_keystore fs).2 = fs1 := by rw [heq]
    rw [← this]
    exact FSInv_load_snd hinv
  · next ks0 fs1 heq =>
    have h2 : (load_keystore fs).2 = fs1 := by rw [heq]
    have hinv1 : FSInv fs1 := by rw [← h2]; exact FSInv_load_snd hinv
    split
    · exact hinv1
    · split
      · exact hinv1
      · split
        · exact hinv1
        · dsimp only
          split
          · split
            · exact FSInv_store_pw hinv1
            · exact FSInv_store_dev hinv1
          · exact FSInv_store_dev hinv1

theorem FSInv_list {fs : FS} (hinv : FSInv fs) :
    FSInv (list_stored_keys fs).2 := by
  unfold list_stored_keys
  split
  · next e fs1 heq =>
    have : (load_keystore fs).2 = fs1 := by rw [heq]
    rw [← this]
    exact FSInv_load_snd hinv
  · next ks0 fs1 heq =>
    have : (load_keystore fs).2 = fs1 := by rw [heq]
    rw [← this]
    exact FSInv_load_snd hinv

theorem FSInv_step (op : KsOp) (env : Env) {fs : FS} (hinv : FSInv fs) :
    FSInv (stepOp op env fs) := by
  cases op with
  | storePw n p l => exact FSInv_store_pw hinv
  | storeDev n l => exact FSInv_store_dev hinv
  | unlock pk pw => exact FSInv_unlock hinv
  | removeKey pk => exact FSInv_remove hinv
  | relabel pk l => exact FSInv_relabel hinv
  | changePw pk c n2 => exact FSInv_change hinv
  | listKeys => exact FSInv_list hinv
  | clearAll => exact FSInv_none

theorem FSInv_runOps (ops : List (KsOp × Env)) {fs : FS} (hinv : FSInv fs) :
    FSInv (runOps ops fs) := by
  induction ops generalizing fs with
  | nil => exact hinv
  | cons oe rest ih => exact ih (FSInv_step oe.1 oe.2 hinv)

theorem unlock_derive_password {e : StoredKeyEntry} {pw : String} {env : Env}
    (hmode : e.mode = "password")
    (hsalt : MIN_SALT_LEN ≤ e.argon2_salt.length) :
    unlock_derive e (some pw) env = .ok ⟨pw, strToBytes e.argon2_salt⟩ := by
  unfold unlock_derive derive_key_from_password
  rw [if_pos hmode]
  dsimp only
  rw [if_neg (by rw [strToBytes_length]; omega)]

theorem decrypt_nsec_seal {key : DerivedKey} {nonce : List Nat} {pt : String}
    (hn : nonce.length = 24) :
    decrypt_nsec nonce ⟨key, nonce, pt⟩ key = .ok pt := by
  unfold decrypt_nsec
  rw [if_neg (by omega), if_pos ⟨rfl, rfl⟩]

/-! Claim theorems. -/

/-- C1: for every valid secret key S (well-formed nsec) and every
non-empty password P, storing S under P with store_key_with_password and
then unlocking the resulting entry, selected by its identity, with the
same P succeeds and recovers exactly S: the stored entry for the derived
identity decrypts under the derived key to the original plaintext, and
the unlock operation returns the login profile of S. -/
theorem store_then_unlock_roundtrip
    (S P : String) (sk : SecretKey) (lbl : Option String) (env env2 : Env)
    (fs fs1 : FS) (ks0 : KeystoreFile)
    (hS : secretKeyFromBech32 S = .ok sk) (hP : P ≠ "")
    (hnonce : env.freshNonce.length = 24)
    (hsalt : MIN_SALT_LEN ≤ env.freshSalt.length)
    (hload : load_keystore fs = (.ok ks0, fs1)) :
    ∃ fs2 ks2 e,
      store_key_with_password S P lbl env fs = (.ok (), fs2) ∧
      (load_keystore fs2).1 = .ok ks2 ∧
      e ∈ ks2.keys ∧ e.pubkey = publicKeyHex sk ∧
      decrypt_nsec e.nonce e.ciphertext ⟨P, strToBytes e.argon2_salt⟩ = .ok S ∧
      unlock_stored_key (some (publicKeyHex sk)) (some P) env2 fs2 =
        (.ok (login_with_keys sk), fs2) := by
  have hstore := @store_key_with_password_ok S P lbl env fs fs1 ks0 sk hP hS
    hload hsalt
  have hver2 : ks0.version = 2 := load_ok_version hload
  set entry : StoredKeyEntry :=
    ⟨publicKeyHex sk, "password", env.freshNonce,
     ⟨⟨P, strToBytes env.freshSalt⟩, env.freshNonce, S⟩,
     env.freshSalt, env.now, lbl⟩ with hentry
  set ks2 : KeystoreFile :=
    { ks0 with keys :=
        ks0.keys.filter (fun k => k.pubkey != publicKeyHex sk) ++ [entry] }
    with hks2
  have hv2' : ks2.version = 2 := hver2
  have hload2 : load_keystore (save_keystore ks2 fs1) =
      (.ok ks2, save_keystore ks2 fs1) := load_save hv2' fs1
  have hfind : ks2.keys.find?
      (fun k => k.pubkey == publicKeyHex sk) = some entry := by
    apply find?_append_last
    · intro k hk
      exact mem_filter_ne hk
    · rfl
  have hud : unlock_derive entry (some P) env2 =
      .ok ⟨P, strToBytes entry.argon2_salt⟩ :=
    unlock_derive_password rfl hsalt
  have hdec : decrypt_nsec entry.nonce entry.ciphertext
      ⟨P, strToBytes entry.argon2_salt⟩ = .ok S :=
    decrypt_nsec_seal hnonce
  refine ⟨save_keystore ks2 fs1, ks2, entry, hstore, by rw [hload2], ?_, rfl,
    hdec, ?_⟩
  · simp [hks2]
  · exact unlock_stored_key_ok hload2 hfind hud hdec hS rfl

/-- C1 witness: the round trip evaluated at the secret nsec17 and the
password pw, starting from an absent keystore file. -/
theorem store_then_unlock_roundtrip_witness :
    ∃ fs2 ks2 e,
      store_key_with_password "nsec17" "pw" (some "main") envW none =
        (.ok (), fs2) ∧
      (load_keystore fs2).1 = .ok ks2 ∧
      e ∈ ks2.keys ∧ e.pubkey = publicKeyHex ⟨7⟩ ∧
      decrypt_nsec e.nonce e.ciphertext
        ⟨"pw", strToBytes e.argon2_salt⟩ = .ok "nsec17" ∧
      unlock_stored_key (some (publicKeyHex ⟨7⟩)) (some "pw") envW2 fs2 =
        (.ok (login_with_keys ⟨7⟩), fs2) :=
  store_then_unlock_roundtrip "nsec17" "pw" ⟨7⟩ (some "main") envW envW2
    none none ⟨2, []⟩ (by decide) (by decide) (by decide) (by decide) rfl

/-- C2 counterexample: change_key_password does not re-derive and check
the identity of the decrypted secret. On a file whose single entry claims
identity pub999 but whose ciphertext seals the secret nsec17 (which
derives pub7), the rotation succeeds instead of failing with a
verification error. -/
theorem change_key_password_skips_verification_cex :
    (change_key_password "pub999" (some "p") (some "q") envW2 fsTampered).1 =
      .ok () ∧
    decrypt_nsec tamperedEntry.nonce tamperedEntry.ciphertext
      ⟨"p", strToBytes "abcdefgh"⟩ = .ok "nsec17" ∧
    secretKeyFromBech32 "nsec17" = .ok ⟨7⟩ ∧
    publicKeyHex ⟨7⟩ ≠ "pub999" ∧
    tamperedEntry.pubkey = "pub999" :=
  ⟨by decide, by decide, by decide, by decide, rfl⟩

/-- C2 amended: unlock_stored_key re-derives the public identifier from
the recovered secret and fails with the verification error, leaving the
loaded keystore as its only effect, whenever the derived identifier
differs from the stored one; change_key_password performs no such check
(see the counterexample). -/
theorem unlock_rejects_pubkey_mismatch
    (pk : String) (pw : Option String) (env : Env) (fs fs3 : FS)
    (ks2 : KeystoreFile) (e : StoredKeyEntry) (dk : DerivedKey)
    (S : String) (sk : SecretKey)
    (hload : load_keystore fs = (.ok ks2, fs3))
    (hfind : ks2.keys.find? (fun k => k.pubkey == pk) = some e)
    (hderive : unlock_derive e pw env = .ok dk)
    (hdec : decrypt_nsec e.nonce e.ciphertext dk = .ok S)
    (hparse : secretKeyFromBech32 S = .ok sk)
    (hver : publicKeyHex sk ≠ e.pubkey) :
    unlock_stored_key (some pk) pw env fs =
      (.error "Key verification failed - pubkey mismatch", fs3) ∧
    load_keystore fs3 = (.ok ks2, fs3) := by
  constructor
  · exact unlock_stored_key_verification_error hload hfind hderive hdec
      hparse hver
  · have h := load_keystore_idem fs
    rw [hload] at h
    exact h

/-- C2 amended witness: the tampered entry evaluated concretely — unlock
with the correct password fails with the verification error. -/
theorem unlock_rejects_pubkey_mismatch_witness :
    unlock_stored_key (some "pub999") (some "p") envW2 fsTampered =
      (.error "Key verification failed - pubkey mismatch", fsTampered) ∧
    load_keystore fsTampered = (.ok ⟨2, [tamperedEntry]⟩, fsTampered) :=
  unlock_rejects_pubkey_mismatch "pub999" (some "p") envW2 fsTampered
    fsTampered ⟨2, [tamperedEntry]⟩ tamperedEntry
    ⟨"p", strToBytes "abcdefgh"⟩ "nsec17" ⟨7⟩
    rfl (by decide) (by decide) (by decide) (by decide) (by decide)

/-- C3: the keystore never holds two entries with the same identity. The
uniqueness invariant is preserved by every sequence of operations, and an
add of either kind — store_key_with_password or
store_key_without_password — on an identity already present replaces the
prior entry: the new state has exactly one entry for that identity and
the total number of entries is unchanged. -/
theorem add_replaces_and_uniqueness_invariant
    (fs : FS) (hinv : FSInv fs) :
    (∀ ops : List (KsOp × Env), FSInv (runOps ops fs)) ∧
    (∀ (S P : String) (lbl : Option String) (env : Env) (sk : SecretKey)
        (ks0 : KeystoreFile) (fs1 : FS),
      P ≠ "" → MIN_SALT_LEN ≤ env.freshSalt.length →
      secretKeyFromBech32 S = .ok sk →
      load_keystore fs = (.ok ks0, fs1) →
      ∃ fs2 ks2,
        store_key_with_password S P lbl env fs = (.ok (), fs2) ∧
        (load_keystore fs2).1 = .ok ks2 ∧
        (ks2.keys.map (fun k => k.pubkey)).count (publicKeyHex sk) = 1 ∧
        (publicKeyHex sk ∈ ks0.keys.map (fun k => k.pubkey) →
          ks2.keys.length = ks0.keys.length)) ∧
    (∀ (S : String) (lbl : Option String) (env : Env) (sk : SecretKey)
        (ks0 : KeystoreFile) (fs1 : FS),
      secretKeyFromBech32 S = .ok sk →
      load_keystore fs = (.ok ks0, fs1) →
      ∃ fs2 ks2,
        store_key_without_password S lbl env fs = (.ok (), fs2) ∧
        (load_keystore fs2).1 = .ok ks2 ∧
        (ks2.keys.map (fun k => k.pubkey)).count (publicKeyHex sk) = 1 ∧
        (publicKeyHex sk ∈ ks0.keys.map (fun k => k.pubkey) →
          ks2.keys.length = ks0.keys.length)) := by
  refine ⟨?_, ?_, ?_⟩
  · intro ops
    exact FSInv_runOps ops hinv
  · intro S P lbl env sk ks0 fs1 hP hsalt hS hload
    have hstore := @store_key_with_password_ok S P lbl env fs fs1 ks0 sk hP hS
      hload hsalt
    have hver2 : ks0.version = 2 := load_ok_version hload
    have hnd : pubkeysNodup ks0 := load_ok_nodup hinv hload
    set entry : StoredKeyEntry :=
      ⟨publicKeyHex sk, "password", env.freshNonce,
       ⟨⟨P, strToBytes env.freshSalt⟩, env.freshNonce, S⟩,
       env.freshSalt, env.now, lbl⟩ with hentry
    set ks2 : KeystoreFile :=
      { ks0 with keys :=
          ks0.keys.filter (fun k => k.pubkey != publicKeyHex sk) ++ [entry] }
      with hks2
    have hv2' : ks2.version = 2 := hver2
    refine ⟨save_keystore ks2 fs1, ks2, hstore,
      by rw [load_save hv2' fs1], ?_, ?_⟩
    · exact count_pubkey_after_store rfl
    · intro hmem
      have hlen := filter_ne_length_of_mem hnd hmem
      show (ks0.keys.filter (fun k => k.pubkey != publicKeyHex sk) ++
        [entry]).length = ks0.keys.length
      rw [List.length_append]
      simp only [List.length_singleton]
      omega
  · intro S lbl env sk ks0 fs1 hS hload
    have hstore := @store_key_without_password_ok S lbl env fs fs1 ks0 sk hS
      hload
    have hver2 : ks0.version = 2 := load_ok_version hload
    have hnd : pubkeysNodup ks0 := load_ok_nodup hinv hload
    set entry : StoredKeyEntry :=
      ⟨publicKeyHex sk, "device", env.freshNonce,
       ⟨⟨env.machineId,
          (sha256Bytes (strToBytes env.machineId ++
            DEVICE_MODE_APP_SALT)).take 16⟩, env.freshNonce, S⟩,
       "", env.now, lbl⟩ with hentry
    set ks2 : KeystoreFile :=
      { ks0 with keys :=
          ks0.keys.filter (fun k => k.pubkey != publicKeyHex sk) ++ [entry] }
      with hks2
    have hv2' : ks2.version = 2 := hver2
    refine ⟨save_keystore ks2 fs1, ks2, hstore,
      by rw [load_save hv2' fs1], ?_, ?_⟩
    · exact count_pubkey_after_store rfl
    · intro hmem
      have hlen := filter_ne_length_of_mem hnd hmem
      show (ks0.keys.filter (fun k => k.pubkey != publicKeyHex sk) ++
        [entry]).length = ks0.keys.length
      rw [List.length_append]
      simp only [List.length_singleton]
      omega

/-- C3 witness: on the one-entry keystore fsStored, a second add of the
same secret — under a different password and, separately, under device
protection — keeps exactly one entry for pub7 and leaves the entry count
at one; the invariant also holds after running an add through the
operation-sequence semantics. -/
theorem add_replaces_and_uniqueness_invariant_witness :
    FSInv (runOps [(KsOp.storePw "nsec17" "pw2" none, envW2)] fsStored) ∧
    (∃ fs2 ks2,
      store_key_with_password "nsec17" "pw2" (some "x") envW2 fsStored =
        (.ok (), fs2) ∧
      (load_keystore fs2).1 = .ok ks2 ∧
      (ks2.keys.map (fun k => k.pubkey)).count (publicKeyHex ⟨7⟩) = 1 ∧
      (publicKeyHex ⟨7⟩ ∈ ksStoredW.keys.map (fun k => k.pubkey) →
        ks2.keys.length = ksStoredW.keys.length)) ∧
    (∃ fs2 ks2,
      store_key_without_password "nsec17" (some "y") envW2 fsStored =
        (.ok (), fs2) ∧
      (load_keystore fs2).1 = .ok ks2 ∧
      (ks2.keys.map (fun k => k.pubkey)).count (publicKeyHex ⟨7⟩) = 1 ∧
      (publicKeyHex ⟨7⟩ ∈ ksStoredW.keys.map (fun k => k.pubkey) →
        ks2.keys.length = ksStoredW.keys.length)) := by
  have h := add_replaces_and_uniqueness_invariant fsStored (by decide)
  exact ⟨h.1 [(KsOp.storePw "nsec17" "pw2" none, envW2)],
    h.2.1 "nsec17" "pw2" (some "x") envW2 ⟨7⟩ ksStoredW fsStored (by decide)
      (by decide) (by decide) (by decide),
    h.2.2 "nsec17" (some "y") envW2 ⟨7⟩ ksStoredW fsStored (by decide)
      (by decide)⟩

/-- C4: a file that parses only under the legacy v1 schema is loaded as a
version-2 keystore holding exactly the one migrated entry with no label,
and that migrated form is persisted before load returns, so a second load
takes the current-format path and changes nothing; a file that parses
under neither schema makes load fail with the format error and leaves the
file untouched. -/
theorem load_migrates_legacy_once (doc : RawDoc) (hv2 : doc.asV2 = none) :
    (∀ v1, doc.asV1 = some v1 →
      load_keystore (some doc) =
        (.ok (migrateV1 v1), some ⟨some (migrateV1 v1), none⟩) ∧
      (migrateV1 v1).version = 2 ∧
      (migrateV1 v1).keys =
        [⟨v1.pubkey, v1.mode, v1.nonce, v1.ciphertext, v1.argon2_salt,
          v1.created_at, none⟩] ∧
      load_keystore (some ⟨some (migrateV1 v1), none⟩) =
        (.ok (migrateV1 v1), some ⟨some (migrateV1 v1), none⟩)) ∧
    (doc.asV1 = none →
      load_keystore (some doc) =
        (.error "Failed to parse keystore file", some doc)) := by
  constructor
  · intro v1 hv1
    refine ⟨?_, rfl, rfl, ?_⟩
    · simp [load_keystore, hv2, tryMigrate, hv1, save_keystore]
    · simp [load_keystore, migrateV1]
  · intro hv1
    simp [load_keystore, hv2, tryMigrate, hv1]

/-- C4 witness: the migration evaluated on a concrete legacy document,
and the format error on a document that parses under neither schema. -/
theorem load_migrates_legacy_once_witness :
    load_keystore (some ⟨none, some v1Doc⟩) =
      (.ok (migrateV1 v1Doc), some ⟨some (migrateV1 v1Doc), none⟩) ∧
    load_keystore (some ⟨some (migrateV1 v1Doc), none⟩) =
      (.ok (migrateV1 v1Doc), some ⟨some (migrateV1 v1Doc), none⟩) ∧
    load_keystore (some ⟨none, none⟩) =
      (.error "Failed to parse keystore file", some ⟨none, none⟩) := by
  have h := load_migrates_legacy_once ⟨none, some v1Doc⟩ rfl
  have h2 := load_migrates_legacy_once ⟨none, none⟩ rfl
  exact ⟨(h.1 v1Doc rfl).1, (h.1 v1Doc rfl).2.2.2, h2.2 rfl⟩

theorem loadedKeys_save_mk {v : Nat} (h : v = 2) (keys : List StoredKeyEntry)
    (fs : FS) :
    loadedKeys (save_keystore ⟨v, keys⟩ fs) = keys := by
  subst h
  unfold loadedKeys
  rw [load_save rfl fs]

theorem store_pw_success_created {nsec password : String}
    {label : Option String} {env : Env} {fs fs2 : FS}
    (h : store_key_with_password nsec password label env fs = (.ok (), fs2)) :
    ∃ l e, loadedKeys fs2 = l ++ [e] ∧ e.created_at = env.now := by
  unfold store_key_with_password derive_key_from_password encrypt_nsec at h
  split at h
  · simp at h
  · split at h
    · simp at h
    · split at h
      · simp at h
      · next ks0 fs1 heq =>
        try dsimp only at h
        split at h
        · simp at h
        · try dsimp only at h
          rw [Prod.mk.injEq] at h
          obtain ⟨-, h2⟩ := h
          subst h2
          have hv : ks0.version = 2 := load_ok_version heq
          rw [loadedKeys_save_mk hv]
          exact ⟨_, _, rfl, rfl⟩

theorem store_dev_success_created {nsec : String}
    {label : Option String} {env : Env} {fs fs2 : FS}
    (h : store_key_without_password nsec label env fs = (.ok (), fs2)) :
    ∃ l e, loadedKeys fs2 = l ++ [e] ∧ e.created_at = env.now := by
  unfold store_key_without_password derive_key_from_device
    derive_key_from_password encrypt_nsec at h
  split at h
  · simp at h
  · split at h
    · simp at h
    · next ks0 fs1 heq =>
      try dsimp only at h
      split at h
      · simp at h
      · try dsimp only at h
        rw [Prod.mk.injEq] at h
        obtain ⟨-, h2⟩ := h
        subst h2
        have hv : ks0.version = 2 := load_ok_version heq
        rw [loadedKeys_save_mk hv]
        exact ⟨_, _, rfl, rfl⟩

theorem change_success_created {pk : String} {cur new : Option String}
    {env : Env} {fs fs2 : FS}
    (h : change_key_password pk cur new env fs = (.ok (), fs2)) :
    ∃ l e, loadedKeys fs2 = l ++ [e] ∧ e.created_at = env.now := by
  unfold change_key_password at h
  split at h
  · simp at h
  · split at h
    · simp at h
    · split at h
      · simp at h
      · split at h
        · simp at h
        · dsimp only at h
          split at h
          · split at h
            · exact store_pw_success_created h
            · exact store_dev_success_created h
          · exact store_dev_success_created h

/-- C5 counterexample: created_at is not immutable under
change_key_password. On the honest single-entry keystore whose entry was
created at time 100, a successful rotation at time 200 leaves the entry
for the same identity with created_at 200. -/
theorem rotate_changes_created_at_cex :
    (loadedKeys fsHonest).map (fun e => e.created_at) = [100] ∧
    (change_key_password "pub7" (some "p") (some "q") envW2 fsHonest).1 =
      .ok () ∧
    (loadedKeys ((change_key_password "pub7" (some "p") (some "q") envW2
        fsHonest).2)).map (fun e => e.created_at) = [200] :=
  ⟨by decide, by decide, by decide⟩

/-- C5 amended: created_at is immutable under relabel — update_key_label
preserves the (pubkey, created_at) projection of every entry — while a
successful rotate_protection (change_key_password) replaces the entry and
stamps the replacement with the time of the rotation. -/
theorem relabel_keeps_created_at_rotation_stamps_now :
    (∀ (pk : String) (lbl : Option String) (fs : FS),
      (loadedKeys ((update_key_label pk lbl fs).2)).map
          (fun e => (e.pubkey, e.created_at)) =
        (loadedKeys fs).map (fun e => (e.pubkey, e.created_at))) ∧
    (∀ (pk : String) (cur new : Option String) (env : Env) (fs fs2 : FS),
      change_key_password pk cur new env fs = (.ok (), fs2) →
      ∃ l e, loadedKeys fs2 = l ++ [e] ∧ e.created_at = env.now) := by
  constructor
  · intro pk lbl fs
    unfold update_key_label
    split
    · next e fs1 heq =>
      have h2 : (load_keystore fs).2 = fs1 := by rw [heq]
      rw [← h2, loadedKeys_load_snd]
    · next ks0 fs1 heq =>
      have h2 : (load_keystore fs).2 = fs1 := by rw [heq]
      have hlk : loadedKeys fs = ks0.keys := by
        unfold loadedKeys
        rw [heq]
      split
      · rw [← h2, loadedKeys_load_snd]
      · next keys2 hset =>
        have hv0 : ks0.version = 2 := load_ok_version heq
        have hv : ({ ks0 with keys := keys2 } : KeystoreFile).version = 2 := hv0
        have hl2 : loadedKeys
            (save_keystore { ks0 with keys := keys2 } fs1) = keys2 := by
          unfold loadedKeys
          rw [load_save hv fs1]
        show (loadedKeys
            (save_keystore { ks0 with keys := keys2 } fs1)).map _ = _
        rw [hl2, hlk]
        exact setLabelFirst_map (fun e => (e.pubkey, e.created_at))
          (fun k lbl2 => rfl) hset
  · intro pk cur new env fs fs2 h
    exact change_success_created h

/-- C5 amended witness: relabelling the stored entry keeps its creation
time, and the concrete rotation stamps the rotation time. -/
theorem relabel_keeps_created_at_rotation_stamps_now_witness :
    (loadedKeys ((update_key_label "pub7" (some "renamed") fsHonest).2)).map
        (fun e => (e.pubkey, e.created_at)) =
      (loadedKeys fsHonest).map (fun e => (e.pubkey, e.created_at)) ∧
    (∃ l e, loadedKeys ((change_key_password "pub7" (some "p") (some "q")
        envW2 fsHonest).2) = l ++ [e] ∧ e.created_at = envW2.now) := by
  have h := relabel_keeps_created_at_rotation_stamps_now
  refine ⟨h.1 "pub7" (some "renamed") fsHonest, ?_⟩
  exact h.2 "pub7" (some "p") (some "q") envW2 fsHonest
    (change_key_password "pub7" (some "p") (some "q") envW2 fsHonest).2
    (by decide)

theorem change_derive_password {e : StoredKeyEntry} {pw : String} {env : Env}
    (hmode : e.mode = "password")
    (hsalt : MIN_SALT_LEN ≤ e.argon2_salt.length) :
    change_derive e (some pw) env = .ok ⟨pw, strToBytes e.argon2_salt⟩ := by
  unfold change_derive derive_key_from_password
  rw [if_pos hmode]
  dsimp only
  rw [if_neg (by rw [strToBytes_length]; omega)]

/-- C6: a successful rotation of a well-formed entry of either protection
mode, under valid current credentials — credentials whose
mode-appropriate derived key (per the change_derive block: the stored
salt with the supplied password for a password entry, the device
material for a device entry) is the key the ciphertext was sealed with —
keeps the identity and the label of the entry while replacing its
protection: a non-empty new password yields a password-mode entry
carrying the freshly generated salt, and an absent new password yields a
device-mode entry with an empty stored salt; in both cases the entry for
the identity is unique, re-sealed over the same secret, and stamped with
the rotation time. -/
theorem rotate_preserves_identity_and_label
    (pk newPw S : String) (cur : Option String) (sk : SecretKey)
    (env : Env) (fs fs1 : FS) (ks0 : KeystoreFile) (e : StoredKeyEntry)
    (dk : DerivedKey)
    (hload : load_keystore fs = (.ok ks0, fs1))
    (hfind : ks0.keys.find? (fun k => k.pubkey == pk) = some e)
    (hderive : change_derive e cur env = .ok dk)
    (hseal : e.ciphertext = ⟨dk, e.nonce, S⟩)
    (hnlen : e.nonce.length = 24)
    (hS : secretKeyFromBech32 S = .ok sk)
    (hpk : publicKeyHex sk = e.pubkey)
    (hensalt : MIN_SALT_LEN ≤ env.freshSalt.length)
    (hnew : newPw ≠ "") :
    (∃ fs2 ks2,
      change_key_password pk cur (some newPw) env fs = (.ok (), fs2) ∧
      (load_keystore fs2).1 = .ok ks2 ∧
      ks2.keys.filter (fun k => k.pubkey == e.pubkey) =
        [⟨e.pubkey, "password", env.freshNonce,
          ⟨⟨newPw, strToBytes env.freshSalt⟩, env.freshNonce, S⟩,
          env.freshSalt, env.now, e.label⟩]) ∧
    (∃ fs2 ks2,
      change_key_password pk cur none env fs = (.ok (), fs2) ∧
      (load_keystore fs2).1 = .ok ks2 ∧
      ∃ dk2, derive_key_from_device env = .ok dk2 ∧
        ks2.keys.filter (fun k => k.pubkey == e.pubkey) =
          [⟨e.pubkey, "device", env.freshNonce, ⟨dk2, env.freshNonce, S⟩,
            "", env.now, e.label⟩]) := by
  have hdec : decrypt_nsec e.nonce e.ciphertext dk = .ok S := by
    rw [hseal]
    exact decrypt_nsec_seal hnlen
  have hload1 : load_keystore fs1 = (.ok ks0, fs1) := by
    have h := load_keystore_idem fs
    rw [hload] at h
    exact h
  have hver2 : ks0.version = 2 := load_ok_version hload
  constructor
  · have hch := @change_key_password_unfolds pk cur (some newPw)
      env fs fs1 ks0 e dk S hload hfind hderive hdec
    dsimp only at hch
    rw [if_pos hnew] at hch
    have hstore := @store_key_with_password_ok S newPw e.label env fs1 fs1
      ks0 sk hnew hS hload1 hensalt
    rw [hstore] at hch
    set entry : StoredKeyEntry :=
      ⟨publicKeyHex sk, "password", env.freshNonce,
       ⟨⟨newPw, strToBytes env.freshSalt⟩, env.freshNonce, S⟩,
       env.freshSalt, env.now, e.label⟩ with hentry
    set ks2 : KeystoreFile :=
      { ks0 with keys :=
          ks0.keys.filter (fun k => k.pubkey != publicKeyHex sk) ++ [entry] }
      with hks2
    have hv2' : ks2.version = 2 := hver2
    refine ⟨save_keystore ks2 fs1, ks2, hch,
      by rw [load_save hv2' fs1], ?_⟩
    rw [← hpk]
    exact filter_eq_after_replace rfl
  · have hch := @change_key_password_unfolds pk cur none
      env fs fs1 ks0 e dk S hload hfind hderive hdec
    dsimp only at hch
    have hstore := @store_key_without_password_ok S e.label env fs1 fs1
      ks0 sk hS hload1
    rw [hstore] at hch
    set entry : StoredKeyEntry :=
      ⟨publicKeyHex sk, "device", env.freshNonce,
       ⟨⟨env.machineId,
          (sha256Bytes (strToBytes env.machineId ++
            DEVICE_MODE_APP_SALT)).take 16⟩, env.freshNonce, S⟩,
       "", env.now, e.label⟩ with hentry
    set ks2 : KeystoreFile :=
      { ks0 with keys :=
          ks0.keys.filter (fun k => k.pubkey != publicKeyHex sk) ++ [entry] }
      with hks2
    have hv2' : ks2.version = 2 := hver2
    refine ⟨save_keystore ks2 fs1, ks2, hch,
      by rw [load_save hv2' fs1],
      ⟨env.machineId,
       (sha256Bytes (strToBytes env.machineId ++
         DEVICE_MODE_APP_SALT)).take 16⟩,
      derive_key_from_device_ok env, ?_⟩
    rw [← hpk]
    exact filter_eq_after_replace rfl

/-- C6 witness: the rotation evaluated on a password-protected entry and
on a device-protected entry, each rotated to password protection and to
device protection. -/
theorem rotate_preserves_identity_and_label_witness :
    ((∃ fs2 ks2,
      change_key_password "pub7" (some "p") (some "q") envW2 fsHonest =
        (.ok (), fs2) ∧
      (load_keystore fs2).1 = .ok ks2 ∧
      ks2.keys.filter (fun k => k.pubkey == honestEntry.pubkey) =
        [⟨honestEntry.pubkey, "password", envW2.freshNonce,
          ⟨⟨"q", strToBytes envW2.freshSalt⟩, envW2.freshNonce, "nsec17"⟩,
          envW2.freshSalt, envW2.now, honestEntry.label⟩]) ∧
    (∃ fs2 ks2,
      change_key_password "pub7" (some "p") none envW2 fsHonest =
        (.ok (), fs2) ∧
      (load_keystore fs2).1 = .ok ks2 ∧
      ∃ dk2, derive_key_from_device envW2 = .ok dk2 ∧
        ks2.keys.filter (fun k => k.pubkey == honestEntry.pubkey) =
          [⟨honestEntry.pubkey, "device", envW2.freshNonce,
            ⟨dk2, envW2.freshNonce, "nsec17"⟩, "", envW2.now,
            honestEntry.label⟩])) ∧
    ((∃ fs2 ks2,
      change_key_password "pub7" none (some "q") envW2 fsDevHonest =
        (.ok (), fs2) ∧
      (load_keystore fs2).1 = .ok ks2 ∧
      ks2.keys.filter (fun k => k.pubkey == honestDevEntry.pubkey) =
        [⟨honestDevEntry.pubkey, "password", envW2.freshNonce,
          ⟨⟨"q", strToBytes envW2.freshSalt⟩, envW2.freshNonce, "nsec17"⟩,
          envW2.freshSalt, envW2.now, honestDevEntry.label⟩]) ∧
    (∃ fs2 ks2,
      change_key_password "pub7" none none envW2 fsDevHonest =
        (.ok (), fs2) ∧
      (load_keystore fs2).1 = .ok ks2 ∧
      ∃ dk2, derive_key_from_device envW2 = .ok dk2 ∧
        ks2.keys.filter (fun k => k.pubkey == honestDevEntry.pubkey) =
          [⟨honestDevEntry.pubkey, "device", envW2.freshNonce,
            ⟨dk2, envW2.freshNonce, "nsec17"⟩, "", envW2.now,
            honestDevEntry.label⟩])) :=
  ⟨rotate_preserves_identity_and_label "pub7" "q" "nsec17" (some "p") ⟨7⟩
    envW2 fsHonest fsHonest ⟨2, [honestEntry]⟩ honestEntry
    ⟨"p", strToBytes "abcdefgh"⟩ (by decide) (by decide) (by decide)
    (by decide) (by decide) (by decide) (by decide) (by decide) (by decide),
   rotate_preserves_identity_and_label "pub7" "q" "nsec17" none ⟨7⟩
    envW2 fsDevHonest fsDevHonest ⟨2, [honestDevEntry]⟩ honestDevEntry
    deviceKeyW (by decide) (by decide) (by decide) (by decide) (by decide)
    (by decide) (by decide) (by decide) (by decide)⟩

/-- C7: removing a present identity deletes exactly that entry and saves:
the remaining entries are precisely the original ones whose pubkey
differs from the removed identity (every other entry is retained,
in order), exactly one entry is gone, and a subsequent listing excludes
the identity; removing an absent identity fails with the not-found
error, does not save, and leaves the persisted keystore content
unchanged. -/
theorem remove_present_then_absent_semantics
    (pk : String) (fs fs1 : FS) (ks0 : KeystoreFile)
    (hinv : FSInv fs)
    (hload : load_keystore fs = (.ok ks0, fs1)) :
    (pk ∈ ks0.keys.map (fun k => k.pubkey) →
      ∃ fs2 ks2, remove_stored_key pk fs = (.ok (), fs2) ∧
        (load_keystore fs2).1 = .ok ks2 ∧
        ks2.keys = ks0.keys.filter (fun k => k.pubkey != pk) ∧
        ks2.keys.length + 1 = ks0.keys.length ∧
        pk ∉ ks2.keys.map (fun k => k.pubkey) ∧
        ∃ r, (list_stored_keys fs2).1 = .ok r ∧
          ∀ i ∈ r.keys, i.pubkey ≠ pk) ∧
    (pk ∉ ks0.keys.map (fun k => k.pubkey) →
      remove_stored_key pk fs = (.error ("Key not found: " ++ pk), fs1) ∧
      load_keystore fs1 = (.ok ks0, fs1)) := by
  have hnd := load_ok_nodup hinv hload
  have hver2 := load_ok_version hload
  constructor
  · intro hmem
    have hrm := remove_stored_key_present hload hnd hmem
    set ks2 : KeystoreFile :=
      { ks0 with keys := ks0.keys.filter (fun k => k.pubkey != pk) }
      with hks2
    have hv2' : ks2.version = 2 := hver2
    have hl2 : load_keystore (save_keystore ks2 fs1) =
        (.ok ks2, save_keystore ks2 fs1) := load_save hv2' fs1
    refine ⟨save_keystore ks2 fs1, ks2, hrm, by rw [hl2], rfl,
      filter_ne_length_of_mem hnd hmem, ?_, ?_⟩
    · intro hmem2
      obtain ⟨k, hk, hpk2⟩ := List.mem_map.mp hmem2
      exact mem_filter_ne hk hpk2
    · refine ⟨⟨ks2.keys.map
          (fun k => ⟨k.pubkey, k.mode, k.created_at, k.label⟩)⟩, ?_, ?_⟩
      · simp only [list_stored_keys, hl2]
      · intro i hi
        obtain ⟨k, hk, hik⟩ := List.mem_map.mp hi
        rw [← hik]
        exact mem_filter_ne hk
  · intro hmem
    refine ⟨remove_stored_key_absent hload hmem, ?_⟩
    have h := load_keystore_idem fs
    rw [hload] at h
    exact h

/-- C7 witness: removing pub7 from the stored keystore succeeds, retains
exactly the entries with other identities (here none), shrinks the count
by one, and the listing afterwards excludes it; removing an absent
identity returns the not-found error and the loaded keystore is
unchanged. -/
theorem remove_present_then_absent_semantics_witness :
    (∃ fs2 ks2, remove_stored_key "pub7" fsStored = (.ok (), fs2) ∧
      (load_keystore fs2).1 = .ok ks2 ∧
      ks2.keys = ksStoredW.keys.filter (fun k => k.pubkey != "pub7") ∧
      ks2.keys.length + 1 = ksStoredW.keys.length ∧
      "pub7" ∉ ks2.keys.map (fun k => k.pubkey) ∧
      ∃ r, (list_stored_keys fs2).1 = .ok r ∧
        ∀ i ∈ r.keys, i.pubkey ≠ "pub7") ∧
    (remove_stored_key "nope" fsStored =
      (.error ("Key not found: " ++ "nope"), fsStored) ∧
     load_keystore fsStored = (.ok ksStoredW, fsStored)) := by
  have h1 := remove_present_then_absent_semantics "pub7" fsStored fsStored
    ksStoredW (by decide) (by decide)
  have h2 := remove_present_then_absent_semantics "nope" fsStored fsStored
    ksStoredW (by decide) (by decide)
  exact ⟨h1.1 (by decide), h2.2 (by decide)⟩

/-- C8 counterexample: the authentication-failure message reported by the
code is the string Decryption failed - incorrect password or corrupted
data, not exactly the string incorrect password or corrupted data the
claim names: unlocking the honest entry with a wrong password reports
the longer message. -/
theorem auth_failure_message_cex :
    (unlock_stored_key (some "pub7") (some "wrong") envW2 fsHonest).1 =
      .error "Decryption failed - incorrect password or corrupted data" ∧
    "Decryption failed - incorrect password or corrupted data" ≠
      "incorrect password or corrupted data" :=
  ⟨by decide, by decide⟩

/-- C8 amended: unlocking a password-mode entry with credentials whose
derived key or nonce does not match the sealing ones — a wrong password
or a tampered ciphertext alike — fails with exactly the single message
Decryption failed - incorrect password or corrupted data and never
returns a plaintext; distinct passwords derive distinct keys under the
same salt, so every wrong password falls under this case. -/
theorem wrong_password_single_error_message
    (pk Q : String) (env : Env) (fs fs3 : FS) (ks2 : KeystoreFile)
    (e : StoredKeyEntry) (dkQ : DerivedKey)
    (hload : load_keystore fs = (.ok ks2, fs3))
    (hfind : ks2.keys.find? (fun k => k.pubkey == pk) = some e)
    (hmode : e.mode = "password")
    (hderive : derive_key_from_password Q (strToBytes e.argon2_salt) =
      .ok dkQ)
    (hnlen : e.nonce.length = 24)
    (hbad : e.ciphertext.key ≠ dkQ ∨ e.ciphertext.nonce ≠ e.nonce) :
    unlock_stored_key (some pk) (some Q) env fs =
      (.error "Decryption failed - incorrect password or corrupted data",
        fs3) ∧
    (∀ (P1 P2 : String) (salt : List Nat), P1 ≠ P2 →
      (⟨P1, salt⟩ : DerivedKey) ≠ ⟨P2, salt⟩) := by
  constructor
  · have hud : unlock_derive e (some Q) env = .ok dkQ := by
      unfold unlock_derive
      rw [if_pos hmode]
      dsimp only
      exact hderive
    have hdecErr : decrypt_nsec e.nonce e.ciphertext dkQ =
        .error "Decryption failed - incorrect password or corrupted data" := by
      unfold decrypt_nsec
      rw [if_neg (by omega)]
      rw [if_neg ?_]
      rintro ⟨h1, h2⟩
      rcases hbad with hb | hb
      · exact hb h1
      · exact hb h2
    exact unlock_stored_key_decrypt_error hload hfind hud hdecErr
  · intro P1 P2 salt hne heq
    exact hne (congrArg DerivedKey.material heq)

/-- C8 amended witness: the wrong-password unlock of the honest entry
reports exactly the single message, and the ideal key derivation
separates distinct passwords. -/
theorem wrong_password_single_error_message_witness :
    unlock_stored_key (some "pub7") (some "wrong") envW2 fsHonest =
      (.error "Decryption failed - incorrect password or corrupted data",
        fsHonest) ∧
    (⟨"a", [] ⟩ : DerivedKey) ≠ ⟨"b", []⟩ := by
  have h := wrong_password_single_error_message "pub7" "wrong" envW2
    fsHonest fsHonest ⟨2, [honestEntry]⟩ honestEntry
    ⟨"wrong", strToBytes "abcdefgh"⟩ (by decide) (by decide) rfl (by decide)
    (by decide) (Or.inl (by decide))
  exact ⟨h.1, h.2 "a" "b" [] (by decide)⟩

/-- C10: the byte-level decrypt_nsec is total on arbitrary string inputs:
it never aborts — in particular the 24-byte length guard runs before the
nonce is constructed, so the aborting constructor is never reached — and
it returns the matching error value when the nonce is not valid base64,
when the decoded nonce is not exactly 24 bytes, when the ciphertext is
not valid base64, and when the decrypted bytes are not valid UTF-8. -/
theorem decrypt_nsec_bytes_total
    (nonce_b64 ciphertext_b64 : String) (key : DerivedKey) :
    decrypt_nsec_bytes nonce_b64 ciphertext_b64 key ≠ .panicked ∧
    (b64Decode nonce_b64 = none →
      decrypt_nsec_bytes nonce_b64 ciphertext_b64 key =
        .err "Invalid nonce: invalid base64") ∧
    (∀ bs, b64Decode nonce_b64 = some bs → bs.length ≠ 24 →
      decrypt_nsec_bytes nonce_b64 ciphertext_b64 key =
        .err "Invalid nonce length") ∧
    (∀ bs, b64Decode nonce_b64 = some bs → bs.length = 24 →
      b64Decode ciphertext_b64 = none →
      decrypt_nsec_bytes nonce_b64 ciphertext_b64 key =
        .err "Invalid ciphertext: invalid base64") ∧
    (∀ bs ct pt, b64Decode nonce_b64 = some bs → bs.length = 24 →
      b64Decode ciphertext_b64 = some ct →
      aeadOpenBytes key bs ct = some pt → utf8DecodeBytes pt = none →
      decrypt_nsec_bytes nonce_b64 ciphertext_b64 key =
        .err "Invalid UTF-8: invalid byte") := by
  refine ⟨?_, ?_, ?_, ?_, ?_⟩
  · unfold decrypt_nsec_bytes
    cases hn : b64Decode nonce_b64 with
    | none => simp
    | some bs =>
      by_cases hl : bs.length ≠ 24
      · simp [hl]
      · have hl24 : bs.length = 24 := by omega
        simp only [if_neg hl, xnonceFromSlice, if_pos hl24]
        cases hc : b64Decode ciphertext_b64 with
        | none => simp
        | some ct =>
          cases ha : aeadOpenBytes key bs ct with
          | none => simp [ha]
          | some pt =>
            cases hu : utf8DecodeBytes pt with
            | none => simp [ha, hu]
            | some s => simp [ha, hu]
  · intro h
    simp [decrypt_nsec_bytes, h]
  · intro bs h hlen
    simp [decrypt_nsec_bytes, h, hlen]
  · intro bs h hlen hc
    simp [decrypt_nsec_bytes, h, hlen, xnonceFromSlice, hc]
  · intro bs ct pt h hlen hc ha hu
    simp [decrypt_nsec_bytes, h, hlen, xnonceFromSlice, hc, ha, hu]

/-- C10 witness: the error outcomes evaluated on concrete malformed
inputs. -/
theorem decrypt_nsec_bytes_total_witness :
    decrypt_nsec_bytes "!" "AAAA" ⟨"p", [0]⟩ =
      .err "Invalid nonce: invalid base64" ∧
    decrypt_nsec_bytes "AAAA" "x" ⟨"p", [0]⟩ =
      .err "Invalid nonce length" := by
  have h1 := decrypt_nsec_bytes_total "!" "AAAA" ⟨"p", [0]⟩
  have h2 := decrypt_nsec_bytes_total "AAAA" "x" ⟨"p", [0]⟩
  exact ⟨h1.2.1 (by decide), h2.2.2.1 [0, 0, 0] (by decide) (by decide)⟩

end MSPKeystore
